import Mathlib

/-!
Shallow embedding of the caching and invalidation core of the
`universal-api-cache` repository, together with theorems settling the
spec claims against it.

Embedded files:

* `src/utils/hash.ts` — `sha256`, `getPayloadSize`, `sanitizeObject`
* `src/utils/keyGenerator.ts` — `sortQueryParams`, `buildCacheKey`
* `src/middleware.ts` — freshness check, legacy write invalidation
  (`handleInvalidateOnWrite`, `invalidateByPattern`), request coalescing,
  `refreshInBackground`, response capture (`captureAndCache`)
* `src/utils/invalidation.ts` — `PatternInvalidationEngine`
  (`parseCacheKey`, `invalidateByPattern`, `expandPattern`, `processRule`,
  `invalidate`)
* `src/store/memoryStore.ts` — wildcard key enumeration

Modelling conventions: JavaScript structured values are the inductive
type `J`; machine integers are `Nat` (all quantities involved are
non-negative and far below 2^53, where JS numbers are exact);
JavaScript exceptions are `Except`/`Option`; the platform `URL` parser
is not re-implemented — a request carries the parser's outputs
(normalized path and decoded query pair list) directly, which is what
every embedded function consumes.  The cryptographic hash body of
`sha256` is an abstract parameter `hashFn : String → String`; every
theorem that mentions it holds for an arbitrary `hashFn`.
-/

namespace ApiCache

/-! ### JavaScript structured values -/

/-- A JSON-like JavaScript value: the domain of `sanitizeObject` and of
request/response bodies.  Mirrors the values `JSON.stringify` accepts:
`null`, booleans, (exactly representable) numbers, strings, arrays and
plain objects (an object is a key-ordered association list, keys
pairwise distinct as in any JavaScript object). -/
inductive J : Type where
  | null : J
  | bool : Bool → J
  | num : Int → J
  | str : String → J
  | arr : List J → J
  | obj : List (String × J) → J

/-- Lexicographic code-unit comparison of character lists: the order
JavaScript's default `Array.prototype.sort()` uses on string keys
(`Object.keys(obj).sort()`, hash.ts line 30) and the order
`a.localeCompare(b)` yields for the ASCII keys at issue
(keyGenerator.ts line 16). -/
def charListLE : List Char → List Char → Bool
  | [], _ => true
  | _ :: _, [] => false
  | a :: as, b :: bs => if a = b then charListLE as bs else decide (a < b)

/-- Key comparator on association-list entries. -/
def keyLE {β : Type} (a b : String × β) : Bool :=
  charListLE a.1.data b.1.data

/-- The key order as a proposition. -/
def KeyLEP {β : Type} (a b : String × β) : Prop :=
  keyLE a b = true

instance {β : Type} : DecidableRel (@KeyLEP β) :=
  fun a b => instDecidableEqBool (keyLE a b) true

/-- Stable sort of an association list by key, as performed by the
JavaScript sorts above (both are stable, comparator-consistent sorts;
insertion sort realizes the same specification). -/
def sortPairs {β : Type} (l : List (String × β)) : List (String × β) :=
  l.insertionSort KeyLEP

mutual

/-- `sanitizeObject` (hash.ts lines 26–36): recursively sorts all object
keys; arrays keep their element order; primitives are returned as is. -/
def sanitizeObject : J → J
  | .null => .null
  | .bool b => .bool b
  | .num n => .num n
  | .str s => .str s
  | .arr l => .arr (sanitizeL l)
  | .obj l => .obj (sortPairs (sanitizeP l))

/-- `sanitizeObject` mapped over an array's elements (`obj.map(sanitizeObject)`). -/
def sanitizeL : List J → List J
  | [] => []
  | x :: xs => sanitizeObject x :: sanitizeL xs

/-- `sanitizeObject` mapped over an object's values
(`for (const k of keys) out[k] = sanitizeObject(obj[k])`). -/
def sanitizeP : List (String × J) → List (String × J)
  | [] => []
  | (k, v) :: xs => (k, sanitizeObject v) :: sanitizeP xs

end

mutual

/-- `JSON.stringify` on a `J` value (no `undefined`/function members, so
stringification is total here; string escaping is immaterial to the
claims and the rendering keeps strings verbatim between quotes). -/
def stringify : J → String
  | .null => "null"
  | .bool b => if b then "true" else "false"
  | .num n => toString n
  | .str s => "\"" ++ s ++ "\""
  | .arr l => "[" ++ stringifyL l ++ "]"
  | .obj l => "\x7b" ++ stringifyP l ++ "\x7d"

/-- Comma-joined rendering of array elements. -/
def stringifyL : List J → String
  | [] => ""
  | [x] => stringify x
  | x :: xs => stringify x ++ "," ++ stringifyL xs

/-- Comma-joined rendering of object entries. -/
def stringifyP : List (String × J) → String
  | [] => ""
  | [(k, v)] => "\"" ++ k ++ "\":" ++ stringify v
  | (k, v) :: xs => "\"" ++ k ++ "\":" ++ stringify v ++ "," ++ stringifyP xs

end

/-- `sha256` (hash.ts lines 3–11) with the cryptographic core abstracted
as `hashFn`: a string input is hashed directly; any other input is first
canonicalized by `sanitizeObject` and serialized by `JSON.stringify`.
(`Buffer` inputs, also hashed directly, do not occur in the claims.) -/
def sha256 (hashFn : String → String) : J → String
  | .str s => hashFn s
  | j => hashFn (stringify (sanitizeObject j))

/-! ### Payload sizing (`getPayloadSize`, hash.ts lines 13–24) -/

/-- A response payload as classified by `getPayloadSize`: `null`/`undefined`,
a string, a `Buffer` (only its byte length matters), a JSON-serializable
value, or a value on which `JSON.stringify` throws (a circular structure
or a `BigInt`). -/
inductive Payload : Type where
  | null : Payload
  | str : String → Payload
  | buf : Nat → Payload
  | json : J → Payload
  | unserializable : Payload

/-- `getPayloadSize` (hash.ts lines 13–24): byte length of the payload's
textual form; `0` for `null`; and — in the `catch` branch — `0` when
`JSON.stringify` throws. -/
def getPayloadSize : Payload → Nat
  | .null => 0
  | .str s => s.utf8ByteSize
  | .buf n => n
  | .json j => (stringify j).utf8ByteSize
  | .unserializable => 0

/-- The size gate of `captureAndCache` (middleware.ts lines 230–238):
`true` iff the captured payload is written through to the stores
(`size <= options.maxPayloadSize`). -/
def captureStoresPayload (maxPayloadSize : Nat) (payload : Payload) : Bool :=
  decide (getPayloadSize payload ≤ maxPayloadSize)

/-! ### Key builder (`keyGenerator.ts`) -/

/-- A request, as consumed by the cache core.  `path` and `query` are the
outputs of the platform URL parser on the request's URL
(`new URL(url).pathname` — which for the URLs at issue coincides with
`url.split('?')[0]` used in middleware.ts line 92 — and the decoded
`searchParams` entry list in order); `user` is the result of
`options.getUserId?.(req)` (`none` = no extractor or `undefined`). -/
structure Req : Type where
  method : String
  path : String
  query : List (String × String)
  body : J
  user : Option String

/-- `String.prototype.toUpperCase()`, characterwise. -/
def jsToUpper (s : String) : String :=
  String.mk (s.data.map Char.toUpper)

/-- `(req.method || 'GET').toUpperCase()` (keyGenerator.ts line 27). -/
def reqMethod (r : Req) : String :=
  jsToUpper (if r.method = "" then "GET" else r.method)

/-- `options.getUserId?.(req) || 'anon'` (keyGenerator.ts line 31): the
`anon` sentinel when the extractor is absent or returns a falsy value
(`undefined` or the empty string). -/
def callerId (r : Req) : String :=
  match r.user with
  | some u => if u = "" then "anon" else u
  | none => "anon"

/-- `sortQueryParams` (keyGenerator.ts lines 13–21): sort the parameter
pairs by key (stable sort, comparator on the keys only) and re-serialize
as `k=v&k=v…`. -/
def sortQueryParams (q : List (String × String)) : String :=
  String.intercalate "&" ((sortPairs q).map fun p => p.1 ++ "=" ++ p.2)

/-- The body-hash field (keyGenerator.ts lines 33–41): empty for GET,
otherwise `sha256(req.body ?? {})`.  (`sha256` is total on `J`, so the
`catch { bodyHash = 'no-body' }` branch is unreachable in the model.) -/
def bodyHashField (hashFn : String → String) (r : Req) : String :=
  if reqMethod r = "GET" then "" else sha256 hashFn r.body

/-- `Array.prototype.join(':')` on the field list (keyGenerator.ts line 43). -/
def joinKey : List String → String
  | [] => ""
  | [f] => f
  | f :: fs => f ++ ":" ++ joinKey fs

/-- The five serialized fields of a cache key, in order. -/
def cacheKeyFields (hashFn : String → String) (r : Req) : List String :=
  [reqMethod r, r.path, sortQueryParams r.query, bodyHashField hashFn r, callerId r]

/-- `buildCacheKey` (keyGenerator.ts lines 23–44). -/
def buildCacheKey (hashFn : String → String) (r : Req) : String :=
  joinKey (cacheKeyFields hashFn r)

/-! ### Freshness decision (middleware.ts lines 189–211) -/

/-- A stored cache entry (`CacheValue`, memoryStore.ts lines 3–7). -/
structure CacheValue : Type where
  value : Payload
  createdAt : Nat
  ttl : Nat

/-- `age >= ttl` with `age = Math.floor((now - createdAt) / 1000)`
(middleware.ts lines 193–194).  All times are non-negative milliseconds,
so JS floor division is `Nat` division. -/
def isExpired (now createdAt ttl : Nat) : Bool :=
  decide ((now - createdAt) / 1000 ≥ ttl)

/-- Outcome of the cached-entry branch of the orchestrator. -/
inductive ReadOutcome : Type where
  | freshHit : Payload → ReadOutcome
  | staleServeAndRefresh : Payload → ReadOutcome
  | fetch : ReadOutcome

/-- The tiered-read decision (middleware.ts lines 189–215): absent entry
→ fetch; fresh entry → serve it as a hit; expired entry → serve stale and
refresh in background when stale-while-revalidate is on, else fall
through to the fetch path.  `ttl` is the resolved per-request TTL (the
entry's own stored `ttl` field is not consulted). -/
def readDecision (now ttl : Nat) (swr : Bool) (cached : Option CacheValue) : ReadOutcome :=
  match cached with
  | none => .fetch
  | some c =>
    if isExpired now c.createdAt ttl then
      if swr then .staleServeAndRefresh c.value else .fetch
    else .freshHit c.value

/-! ### Request coalescing (middleware.ts lines 217–277)

The process is a single-threaded event loop: the check of
`pendingRequests`, the registration of the shared promise (whose
executor synchronously hooks `res.json`/`res.send` and calls `next()`),
and the enqueue of a waiter all happen without an intervening suspension
point.  A burst of identical requests that all arrive before the
response is captured is therefore a sequence of `arrive` steps on one
key followed by one `settle` step; the settled `Except` value is what
every `await pending` observes (an `Except.error` is passed through as
`next(e)`). -/

/-- The per-key coalescing state: whether a `PendingRequest` is
registered, which request ids are awaiting its promise (the leader
included), and how many downstream handler invocations have occurred. -/
structure CoalesceState : Type where
  pendingActive : Bool
  waiters : List Nat
  invocations : Nat

/-- No pending entry, no waiters, handler never invoked. -/
def coalesceInit : CoalesceState :=
  { pendingActive := false, waiters := [], invocations := 0 }

/-- One request reaching the coalescing block (middleware.ts lines
218–270): if a `PendingRequest` exists it awaits it; otherwise it
becomes the leader — registers the promise and invokes the downstream
handler (`next()`) exactly once. -/
def arrive (s : CoalesceState) (id : Nat) : CoalesceState :=
  if s.pendingActive then { s with waiters := s.waiters ++ [id] }
  else { pendingActive := true, waiters := [id], invocations := s.invocations + 1 }

/-- Settlement of the shared promise (resolution in `captureAndCache`,
or rejection): every waiter observes the same settled result, and the
registry entry is removed by the `catch`/`finally` chain (middleware.ts
lines 261–267) regardless of success or failure. -/
def settle (s : CoalesceState) (result : Except String Payload) :
    CoalesceState × List (Nat × Except String Payload) :=
  ({ s with pendingActive := false, waiters := [] },
   s.waiters.map fun id => (id, result))

/-! ### Background refresh (middleware.ts lines 119–163) -/

/-- What the downstream handler does when re-invoked by
`refreshInBackground` against the mock response: call `json`, `send` or
`end`, throw synchronously, or never emit anything. -/
inductive RefreshHandlerBehavior : Type where
  | emitJson : Payload → RefreshHandlerBehavior
  | emitSend : Payload → RefreshHandlerBehavior
  | emitEnd : RefreshHandlerBehavior
  | throwSync : RefreshHandlerBehavior
  | silent : RefreshHandlerBehavior

/-- Result of one background refresh: the payload written through to the
stores (if any) and whether the `pendingRequests` entry for the key was
removed (the `finally` on line 158 fires exactly when the refresh
promise settles). -/
structure RefreshRun : Type where
  wrote : Option Payload
  pendingCleared : Bool

/-- The refresh promise of `refreshInBackground` (middleware.ts lines
122–160): `mockRes.json`/`mockRes.send` write the payload through and
resolve; `mockRes.end` resolves; a synchronous throw from the handler is
caught and resolves; nothing else resolves — the code arms no timer, so
a handler that never emits leaves the promise pending forever. -/
def refreshRun (behavior : RefreshHandlerBehavior) : RefreshRun :=
  match behavior with
  | .emitJson d => { wrote := some d, pendingCleared := true }
  | .emitSend d => { wrote := some d, pendingCleared := true }
  | .emitEnd => { wrote := none, pendingCleared := true }
  | .throwSync => { wrote := none, pendingCleared := true }
  | .silent => { wrote := none, pendingCleared := false }

/-! ### Memory-store wildcard enumeration (memoryStore.ts lines 28–45)
and the legacy write-invalidation path (middleware.ts lines 66–106) -/

/-- Matching of `wildcardToRegExp(pattern)` — every character literal
except `*`, which becomes `.*` — against a key, on character lists.  A
`*` matches an arbitrary run: the rest of the pattern must match some
suffix of the key. -/
def wildMatch : List Char → List Char → Bool
  | [], k => k.isEmpty
  | p :: ps, k =>
    if p = '*' then k.tails.any fun suffix => wildMatch ps suffix
    else
      match k with
      | [] => false
      | c :: ks => p = c && wildMatch ps ks

/-- `MemoryStore.keys(pattern)` membership: a falsy or `"*"` pattern
returns every key; otherwise keys are filtered by the wildcard regex. -/
def memKeyMatches (pattern key : String) : Bool :=
  if pattern = "" || pattern = "*" then true
  else wildMatch pattern.data key.data

/-- One `invalidateByPattern` call of the orchestrator (middleware.ts
lines 66–73) against one store, expressed on the store's key set: the
keys enumerated for the pattern are deleted. -/
def deleteMatching (pattern : String) (keys : List String) : List String :=
  keys.filter fun k => !memKeyMatches pattern k

/-- The patterns the legacy path runs, in order (middleware.ts lines
86–105): the request's own derived cache key, the two path-scoped
wildcard patterns — scoped to the request's own caller identity — and
the patterns from the optional `getInvalidationPatterns` callback. -/
def legacyPatterns (hashFn : String → String) (r : Req)
    (callbackPatterns : List String) : List String :=
  buildCacheKey hashFn r ::
  ("GET:" ++ r.path ++ ":*:*:" ++ callerId r) ::
  ("POST:" ++ r.path ++ ":*:*:" ++ callerId r) ::
  callbackPatterns

/-- `handleInvalidateOnWrite` (middleware.ts lines 80–106) on one
store's key set: a no-op unless invalidate-on-write is enabled and the
method is a write method; otherwise each legacy pattern is invalidated
in turn. -/
def handleInvalidateOnWrite (invalidateOnWrite : Bool) (hashFn : String → String)
    (r : Req) (callbackPatterns : List String) (keys : List String) : List String :=
  if !invalidateOnWrite then keys
  else if !(["POST", "PUT", "PATCH", "DELETE"].contains (reqMethod r)) then keys
  else (legacyPatterns hashFn r callbackPatterns).foldl
    (fun ks p => deleteMatching p ks) keys

/-! ### Pattern invalidation engine (`utils/invalidation.ts`)

The engine's `keyMatchesPattern` compiles the pattern to a regular
expression (`*` → `.*`, `{…}` → `[^:]*`).  The theorems below hold for
an arbitrary matcher `matcher : String → String → Bool` standing for
`keyMatchesPattern(key, pattern)`, which subsumes that regex semantics. -/

/-- `ParsedCacheKey` (invalidation.ts lines 7–14, without the redundant
`original` field). -/
structure ParsedCacheKey : Type where
  method : String
  path : String
  query : String
  bodyHash : String
  userId : String
deriving DecidableEq

/-- `String.prototype.split(sep)` for a single-character separator, on
character lists: `""` splits to `[""]`, and every separator occurrence
starts a new field. -/
def splitCh (sep : Char) : List Char → List (List Char)
  | [] => [[]]
  | c :: rest =>
    match splitCh sep rest with
    | [] => [[]]
    | h :: t => if c = sep then [] :: h :: t else (c :: h) :: t

/-- String wrapper for `splitCh`: `key.split(':')` and the like. -/
def jsSplit (sep : Char) (s : String) : List String :=
  (splitCh sep s.data).map String.mk

/-- `parseCacheKey` (invalidation.ts lines 334–348): split on `:` and
require exactly five fields, else `null`. -/
def parseCacheKey (key : String) : Option ParsedCacheKey :=
  match jsSplit ':' key with
  | [m, p, q, b, u] => some ⟨m, p, q, b, u⟩
  | _ => none

/-- JavaScript truthiness of a `string | undefined`. -/
def truthy : Option String → Bool
  | some s => !(s = "")
  | none => false

/-- The user-scoping guard of the engine's `invalidateByPattern`
(invalidation.ts line 285): a key is excluded iff `respectUserScope` and
`currentUserId` are truthy and the key's identity segment differs from
the current caller's. -/
def scopeExcludes (respectUserScope : Option Bool) (currentUserId : Option String)
    (keyUserId : String) : Bool :=
  respectUserScope.getD false &&
    (match currentUserId with
     | some u => !(u = "") && !(keyUserId = u)
     | none => false)

/-- The candidate filter of the engine's `invalidateByPattern`
(invalidation.ts lines 273–290): a key is deleted iff it parses into
five fields, its method is among the rule's target methods, the matcher
accepts it, and user scoping does not exclude it. -/
def engineKeyTargeted (matcher : String → String → Bool) (pattern : String)
    (targetMethods : List String) (respectUserScope : Option Bool)
    (currentUserId : Option String) (key : String) : Bool :=
  match parseCacheKey key with
  | none => false
  | some parsed =>
    targetMethods.contains parsed.method &&
    matcher key pattern &&
    !scopeExcludes respectUserScope currentUserId parsed.userId

/-- The engine's `invalidateByPattern` on one store's key set
(invalidation.ts lines 258–313): all targeted keys are deleted. -/
def engineInvalidateByPattern (matcher : String → String → Bool) (pattern : String)
    (targetMethods : List String) (respectUserScope : Option Bool)
    (currentUserId : Option String) (keys : List String) : List String :=
  keys.filter fun k =>
    !engineKeyTargeted matcher pattern targetMethods respectUserScope currentUserId k

/-- `String.prototype.replace(new RegExp(sub, 'g'), repl)` for a literal
(metacharacter-free) `sub`, on character lists: every non-overlapping
occurrence is replaced, scanning left to right. -/
def replaceAllCh (sub repl : List Char) : List Char → List Char
  | [] => []
  | c :: rest =>
    if h : sub ≠ [] ∧ sub.isPrefixOf (c :: rest) then
      repl ++ replaceAllCh sub repl ((c :: rest).drop sub.length)
    else
      c :: replaceAllCh sub repl rest
  termination_by s => s.length
  decreasing_by
  · have hlen : 1 ≤ sub.length := List.length_pos.mpr h.1
    simp only [List.length_drop, List.length_cons]
    omega
  · simp

/-- `String.prototype.replace(sub, repl)` with a string first argument:
only the first occurrence is replaced. -/
def replaceFirstCh (sub repl : List Char) : List Char → List Char
  | [] => []
  | c :: rest =>
    if sub ≠ [] ∧ sub.isPrefixOf (c :: rest) then
      repl ++ (c :: rest).drop sub.length
    else
      c :: replaceFirstCh sub repl rest

/-- `String.prototype.includes(sub)`. -/
def containsSub (sub : List Char) : List Char → Bool
  | [] => sub.isEmpty
  | c :: rest => sub.isPrefixOf (c :: rest) || containsSub sub rest

/-- String wrapper for `replaceAllCh`. -/
def jsReplaceAll (sub repl s : String) : String :=
  String.mk (replaceAllCh sub.data repl.data s.data)

/-- String wrapper for `replaceFirstCh`. -/
def jsReplaceFirst (sub repl s : String) : String :=
  String.mk (replaceFirstCh sub.data repl.data s.data)

/-- String wrapper for `containsSub`. -/
def jsIncludes (sub s : String) : Bool :=
  containsSub sub.data s.data

/-- `expandPattern` (invalidation.ts lines 219–253): substitute
`{name}` placeholders from the request's path/query parameters (the
merged record of `extractPathParameters`, modeled as an entry list),
then a residual `{userId}` from the caller identity (or `anon`), then a
residual `{path}` from the normalized path.  With user scoping and a
truthy identity the single expansion is returned; otherwise the
expansion is returned together with — when it contains `:anon` — a
variant whose first `:anon` is widened to `:*`. -/
def expandPattern (pattern : String) (pathParams : List (String × String))
    (userId : Option String) (respectUserScope : Bool)
    (normalizedPath : String) : List String :=
  let e1 := pathParams.foldl
    (fun e kv => jsReplaceAll ("\x7b" ++ kv.1 ++ "\x7d") kv.2 e) pattern
  let e2 := jsReplaceAll "\x7buserId\x7d"
    (match userId with
     | some u => if u = "" then "anon" else u
     | none => "anon") e1
  let e3 := jsReplaceAll "\x7bpath\x7d" normalizedPath e2
  if respectUserScope && truthy userId then [e3]
  else
    e3 :: (if jsIncludes ":anon" e3 then [jsReplaceFirst ":anon" ":*" e3] else [])

/-- The fields of an `InvalidationRule` (config.ts lines 3–17) consumed
when the rule is executed.  (The trigger fields `methods`, `pathPattern`
and `condition` only select which rules run and are not part of the
executed-rule claims.) -/
structure Rule : Type where
  invalidatePatterns : List String
  invalidateMethods : Option (List String)
  respectUserScope : Option Bool

/-- `processRule` (invalidation.ts lines 186–214): for every pattern of
the rule, expand it and — skipping expansions already in the
request-scoped dedup set — delete the targeted keys from every store.
Returns the stores' surviving key sets together with the grown dedup
set.  Note the asymmetry of the source: `expandPattern` receives
`rule.respectUserScope !== false` while `invalidateByPattern` receives
`rule.respectUserScope` itself. -/
def processRule (matcher : String → String → Bool) (rule : Rule)
    (pathParams : List (String × String)) (userId : Option String)
    (normalizedPath : String) (stores : List (List String))
    (processed : List String) : List (List String) × List String :=
  let targetMethods := rule.invalidateMethods.getD ["GET"]
  rule.invalidatePatterns.foldl
    (fun acc pattern =>
      (expandPattern pattern pathParams userId
          (decide (rule.respectUserScope ≠ some false)) normalizedPath).foldl
        (fun acc2 expanded =>
          if acc2.2.contains expanded then acc2
          else
            (acc2.1.map
              (engineInvalidateByPattern matcher expanded targetMethods
                rule.respectUserScope userId),
             expanded :: acc2.2))
        acc)
    (stores, processed)

/-- `PatternInvalidationEngine.invalidate` (invalidation.ts lines
68–104), with the race made explicit: `timedOut` says whether the
timeout promise rejected first, and `passResult` is the settlement of
`performInvalidation` (an `Except.error` when a rule threw).  The
`catch` block logs and re-throws, so whichever error wins the race is
returned to the caller unchanged. -/
def engineInvalidate (timedOut : Bool) (passResult : Except String Unit) :
    Except String Unit :=
  if timedOut then Except.error "Invalidation timeout" else passResult

/-! ### Key reordering of structured values

`Reorder j j'` says `j'` is `j` with its object entries permuted, at any
nesting depth, array element order preserved — the spec's notion of a
"reordering of object keys".  Object key lists are required to be
duplicate-free, as they are in any JavaScript object. -/

mutual

/-- Key-reordering relation on `J` values. -/
inductive Reorder : J → J → Prop where
  | null : Reorder .null .null
  | bool (b : Bool) : Reorder (.bool b) (.bool b)
  | num (n : Int) : Reorder (.num n) (.num n)
  | str (s : String) : Reorder (.str s) (.str s)
  | arr {l l' : List J} : ReorderL l l' → Reorder (.arr l) (.arr l')
  | obj {l m l' : List (String × J)} : ReorderP l m → m.Perm l' →
      (l.map Prod.fst).Nodup → Reorder (.obj l) (.obj l')

/-- Elementwise reordering of array elements (order preserved). -/
inductive ReorderL : List J → List J → Prop where
  | nil : ReorderL [] []
  | cons {a b : J} {l l' : List J} : Reorder a b → ReorderL l l' →
      ReorderL (a :: l) (b :: l')

/-- Entrywise reordering of object entries: same keys in the same
positions, values recursively reordered. -/
inductive ReorderP : List (String × J) → List (String × J) → Prop where
  | nil : ReorderP [] []
  | cons {k : String} {v w : J} {l l' : List (String × J)} : Reorder v w →
      ReorderP l l' → ReorderP ((k, v) :: l) ((k, w) :: l')

end

/-! ### Sorting lemmas -/

/-- `charListLE` is total. -/
theorem charListLE_total : ∀ (a b : List Char),
    charListLE a b = true ∨ charListLE b a = true := by
  intro a
  induction a with
  | nil => intro b; exact Or.inl rfl
  | cons x xs ih =>
    intro b
    cases b with
    | nil => exact Or.inr rfl
    | cons y ys =>
      by_cases hxy : x = y
      · subst hxy
        rcases ih ys with h | h
        · exact Or.inl (by simpa [charListLE] using h)
        · exact Or.inr (by simpa [charListLE] using h)
      · rcases lt_or_gt_of_ne hxy with hlt | hgt
        · exact Or.inl (by simp [charListLE, hxy, hlt])
        · exact Or.inr (by simp [charListLE, Ne.symm hxy, hgt])

/-- `charListLE` is transitive. -/
theorem charListLE_trans : ∀ (a b c : List Char),
    charListLE a b = true → charListLE b c = true → charListLE a c = true := by
  intro a
  induction a with
  | nil => intro b c _ _; rfl
  | cons x xs ih =>
    intro b c hab hbc
    cases b with
    | nil => simp [charListLE] at hab
    | cons y ys =>
      cases c with
      | nil => simp [charListLE] at hbc
      | cons z zs =>
        by_cases hxy : x = y
        · subst hxy
          by_cases hxz : x = z
          · subst hxz
            simp only [charListLE, if_pos rfl] at hab hbc ⊢
            exact ih ys zs hab hbc
          · simp only [charListLE, if_pos rfl] at hab
            simp only [charListLE, if_neg hxz] at hbc ⊢
            exact hbc
        · by_cases hyz : y = z
          · subst hyz
            simp only [charListLE, if_neg hxy] at hab ⊢
            exact hab
          · simp only [charListLE, if_neg hxy, decide_eq_true_eq] at hab
            simp only [charListLE, if_neg hyz, decide_eq_true_eq] at hbc
            have hxz : x < z := lt_trans hab hbc
            simp [charListLE, ne_of_lt hxz, hxz]

/-- `charListLE` is antisymmetric. -/
theorem charListLE_antisymm : ∀ (a b : List Char),
    charListLE a b = true → charListLE b a = true → a = b := by
  intro a
  induction a with
  | nil =>
    intro b _ h2
    cases b with
    | nil => rfl
    | cons y ys => simp [charListLE] at h2
  | cons x xs ih =>
    intro b h1 h2
    cases b with
    | nil => simp [charListLE] at h1
    | cons y ys =>
      by_cases hxy : x = y
      · subst hxy
        simp only [charListLE, if_pos rfl] at h1 h2
        rw [ih ys h1 h2]
      · simp only [charListLE, if_neg hxy, decide_eq_true_eq] at h1
        simp only [charListLE, if_neg (Ne.symm hxy), decide_eq_true_eq] at h2
        exact absurd (lt_trans h1 h2) (lt_irrefl x)

instance {β : Type} : IsTotal (String × β) KeyLEP :=
  ⟨fun a b => charListLE_total a.1.data b.1.data⟩

instance {β : Type} : IsTrans (String × β) KeyLEP :=
  ⟨fun a b c => charListLE_trans a.1.data b.1.data c.1.data⟩

/-- The strict key order used to pin down sorted duplicate-free lists is
antisymmetric (vacuously: its two sides contradict). -/
instance {β : Type} : IsAntisymm (String × β) (fun a b => KeyLEP a b ∧ a.1 ≠ b.1) :=
  ⟨fun a b h1 h2 =>
    absurd (String.ext (charListLE_antisymm _ _ h1.1 h2.1)) h1.2⟩

/-- `sortPairs` permutes its input. -/
theorem sortPairs_perm {β : Type} (l : List (String × β)) :
    (sortPairs l).Perm l :=
  List.perm_insertionSort KeyLEP l

/-- Sorting an association list with duplicate-free keys depends only on
the multiset of its entries: a permutation sorts to the same list. -/
theorem sortPairs_eq_of_perm {β : Type} {l m : List (String × β)}
    (hperm : l.Perm m) (hnd : (l.map Prod.fst).Nodup) :
    sortPairs l = sortPairs m := by
  have hperm2 : (sortPairs l).Perm (sortPairs m) :=
    ((sortPairs_perm l).trans hperm).trans (sortPairs_perm m).symm
  have hndl : ((sortPairs l).map Prod.fst).Nodup :=
    (hnd.perm ((sortPairs_perm l).map Prod.fst).symm)
  have hndm : ((sortPairs m).map Prod.fst).Nodup :=
    hndl.perm (hperm2.map Prod.fst)
  have hsl : List.Sorted (@KeyLEP β) (sortPairs l) :=
    List.sorted_insertionSort KeyLEP l
  have hsm : List.Sorted (@KeyLEP β) (sortPairs m) :=
    List.sorted_insertionSort KeyLEP m
  have hnel : List.Pairwise (fun a b : String × β => a.1 ≠ b.1) (sortPairs l) :=
    (List.pairwise_map).mp hndl
  have hnem : List.Pairwise (fun a b : String × β => a.1 ≠ b.1) (sortPairs m) :=
    (List.pairwise_map).mp hndm
  exact List.eq_of_perm_of_sorted hperm2 (hsl.and hnel) (hsm.and hnem)

/-! ### Canonicalization invariance -/

/-- `sanitizeP` is the map of `sanitizeObject` over the values. -/
theorem sanitizeP_eq_map (l : List (String × J)) :
    sanitizeP l = l.map fun kv => (kv.1, sanitizeObject kv.2) := by
  induction l with
  | nil => rfl
  | cons a xs ih =>
    cases a with
    | mk k v => simp only [sanitizeP, List.map_cons, ih]

/-- `sanitizeP` preserves the key sequence. -/
theorem sanitizeP_keys (l : List (String × J)) :
    (sanitizeP l).map Prod.fst = l.map Prod.fst := by
  rw [sanitizeP_eq_map, List.map_map]
  rfl

/-- Entrywise-reordered entry lists carry the same key sequence. -/
theorem reorderP_keys : ∀ {l m : List (String × J)}, ReorderP l m →
    l.map Prod.fst = m.map Prod.fst
  | _, _, .nil => rfl
  | _, _, .cons _ h => congrArg (List.cons _) (reorderP_keys h)

mutual

/-- Canonicalization is invariant under key reordering. -/
theorem reorder_sanitize_eq : ∀ {j j' : J}, Reorder j j' →
    sanitizeObject j = sanitizeObject j'
  | _, _, .null => rfl
  | _, _, .bool _ => rfl
  | _, _, .num _ => rfl
  | _, _, .str _ => rfl
  | _, _, .arr h => by
    simp only [sanitizeObject]
    exact congrArg J.arr (reorderL_sanitize_eq h)
  | _, _, .obj hP hperm hnd => by
    simp only [sanitizeObject]
    refine congrArg J.obj ?_
    rw [reorderP_sanitize_eq hP]
    apply sortPairs_eq_of_perm
    · rw [sanitizeP_eq_map, sanitizeP_eq_map]
      exact hperm.map _
    · rw [sanitizeP_keys, ← reorderP_keys hP]
      exact hnd

/-- Elementwise version for array elements. -/
theorem reorderL_sanitize_eq : ∀ {l l' : List J}, ReorderL l l' →
    sanitizeL l = sanitizeL l'
  | _, _, .nil => rfl
  | _, _, .cons h hl => by
    simp only [sanitizeL]
    rw [reorder_sanitize_eq h, reorderL_sanitize_eq hl]

/-- Entrywise version for object entries. -/
theorem reorderP_sanitize_eq : ∀ {l l' : List (String × J)}, ReorderP l l' →
    sanitizeP l = sanitizeP l'
  | _, _, .nil => rfl
  | _, _, .cons h hl => by
    simp only [sanitizeP]
    rw [reorder_sanitize_eq h, reorderP_sanitize_eq hl]

end

/-- The digest is invariant under key reordering (string inputs are
hashed directly, all other inputs through the canonical serialization). -/
theorem sha256_eq_of_reorder (hashFn : String → String) :
    ∀ {j j' : J}, Reorder j j' → sha256 hashFn j = sha256 hashFn j'
  | _, _, .null => rfl
  | _, _, .bool _ => rfl
  | _, _, .num _ => rfl
  | _, _, .str _ => rfl
  | _, _, .arr h => by
    simp only [sha256]
    rw [reorder_sanitize_eq (Reorder.arr h)]
  | _, _, .obj hP hperm hnd => by
    simp only [sha256]
    rw [reorder_sanitize_eq (Reorder.obj hP hperm hnd)]

/-! ### Injectivity of the colon join on colon-free fields -/

/-- A string that does not contain the `:` separator. -/
def colonFree (s : String) : Prop := ':' ∉ s.data

instance : DecidablePred colonFree :=
  fun s => inferInstanceAs (Decidable (':' ∉ s.data))

/-- A colon-terminated prefix of a character list is uniquely determined
when it contains no colon. -/
theorem colon_split_inj : ∀ (a : List Char) {b r s : List Char},
    ':' ∉ a → ':' ∉ b → a ++ ':' :: r = b ++ ':' :: s → a = b ∧ r = s := by
  intro a
  induction a with
  | nil =>
    intro b r s _ hb heq
    cases b with
    | nil => simpa using heq
    | cons d bs =>
      simp only [List.nil_append, List.cons_append, List.cons.injEq] at heq
      exact absurd (heq.1 ▸ List.mem_cons_self d bs) hb
  | cons c as ih =>
    intro b r s ha hb heq
    cases b with
    | nil =>
      simp only [List.cons_append, List.nil_append, List.cons.injEq] at heq
      exact absurd (heq.1 ▸ List.mem_cons_self c as) ha
    | cons d bs =>
      simp only [List.cons_append, List.cons.injEq] at heq
      have ha' : ':' ∉ as := fun h => ha (List.mem_cons_of_mem c h)
      have hb' : ':' ∉ bs := fun h => hb (List.mem_cons_of_mem d h)
      have := ih ha' hb' heq.2
      exact ⟨by rw [heq.1, this.1], this.2⟩

/-- On equal-length lists of colon-free fields, the colon join is
injective. -/
theorem joinKey_inj : ∀ (f g : List String), f.length = g.length →
    (∀ s ∈ f, colonFree s) → (∀ s ∈ g, colonFree s) →
    joinKey f = joinKey g → f = g := by
  intro f
  induction f with
  | nil =>
    intro g hlen _ _ _
    cases g with
    | nil => rfl
    | cons _ _ => simp at hlen
  | cons a as ih =>
    intro g hlen hf hg heq
    cases g with
    | nil => simp at hlen
    | cons b bs =>
      cases as with
      | nil =>
        cases bs with
        | nil =>
          simp only [joinKey] at heq
          rw [heq]
        | cons _ _ => simp at hlen
      | cons a2 as2 =>
        cases bs with
        | nil => simp at hlen
        | cons b2 bs2 =>
          have hdata : a.data ++ ':' :: (joinKey (a2 :: as2)).data
              = b.data ++ ':' :: (joinKey (b2 :: bs2)).data := by
            have h0 := congrArg String.data heq
            simpa [joinKey, String.data_append, List.append_assoc] using h0
          have hsplit := colon_split_inj a.data
            (hf a (by simp)) (hg b (by simp)) hdata
          have hab : a = b := String.ext hsplit.1
          have hrest : joinKey (a2 :: as2) = joinKey (b2 :: bs2) :=
            String.ext hsplit.2
          have htail : a2 :: as2 = b2 :: bs2 :=
            ih (b2 :: bs2) (by simpa using hlen)
              (fun s hs => hf s (List.mem_cons_of_mem a hs))
              (fun s hs => hg s (List.mem_cons_of_mem b hs))
              hrest
          rw [hab, htail]

/-! ### Fold invariants -/

/-- A predicate preserved by every step of a fold is preserved by the
fold. -/
theorem foldl_pres {σ α : Type} (P : σ → Prop) (f : σ → α → σ)
    (hf : ∀ s a, P s → P (f s a)) :
    ∀ (l : List α) (s : σ), P s → P (l.foldl f s) := by
  intro l
  induction l with
  | nil => intro s hs; exact hs
  | cons a t ih => intro s hs; exact ih (f s a) (hf s a hs)

/-- Mapping a pointwise-`R`-preserving function over the right list
preserves `Forall₂ R`. -/
theorem forall₂_map_right {α β : Type} {R : α → β → Prop} {g : β → β}
    (hg : ∀ a b, R a b → R a (g b)) :
    ∀ {l₁ : List α} {l₂ : List β}, List.Forall₂ R l₁ l₂ →
      List.Forall₂ R l₁ (l₂.map g) := by
  intro l₁ l₂ h
  exact List.forall₂_map_right_iff.mpr (h.imp fun a b hab => hg a b hab)

/-- `processRule` never deletes a key that no pattern targets: if the
engine filter rejects the key for every pattern and target-method set,
the key survives in every store. -/
theorem processRule_preserves_key (matcher : String → String → Bool) (rule : Rule)
    (pathParams : List (String × String)) (userId : Option String)
    (normalizedPath : String) (stores : List (List String))
    (processed : List String) (key : String)
    (h : ∀ pattern targetMethods,
      engineKeyTargeted matcher pattern targetMethods rule.respectUserScope
        userId key = false) :
    List.Forall₂ (fun s t => key ∈ s → key ∈ t) stores
      (processRule matcher rule pathParams userId normalizedPath stores processed).1 := by
  unfold processRule
  have hstep : ∀ (pattern : String) (acc : List (List String) × List String),
      List.Forall₂ (fun s t => key ∈ s → key ∈ t) stores acc.1 →
      List.Forall₂ (fun s t => key ∈ s → key ∈ t) stores
        (if acc.2.contains pattern then acc
         else
           (acc.1.map
             (engineInvalidateByPattern matcher pattern
               (rule.invalidateMethods.getD ["GET"]) rule.respectUserScope userId),
            pattern :: acc.2)).1 := by
    intro pattern acc hacc
    by_cases hc : acc.2.contains pattern = true
    · rw [if_pos hc]
      exact hacc
    · rw [if_neg hc]
      refine forall₂_map_right ?_ hacc
      intro s t hst hkey
      refine List.mem_filter.mpr ⟨hst hkey, ?_⟩
      simp [h pattern (rule.invalidateMethods.getD ["GET"])]
  refine foldl_pres
    (fun acc : List (List String) × List String =>
      List.Forall₂ (fun s t => key ∈ s → key ∈ t) stores acc.1)
    _ ?_ rule.invalidatePatterns (stores, processed)
    (List.forall₂_same.mpr fun _ _ => id)
  intro acc pattern hacc
  exact foldl_pres _ _ (fun acc2 expanded h2 => hstep expanded acc2 h2) _ acc hacc

/-! ## Claim theorems -/

/-- **C2** (code evidence): for a payload whose serialization to text
fails, `getPayloadSize` returns `0` — not an infinitely-large sentinel —
and the `size <= maxPayloadSize` gate of `captureAndCache` therefore
passes (shown at the default 1 MiB ceiling), so the unserializable
payload IS written to the stores, contradicting the claim that such
payloads are never cached. -/
theorem C2_unserializable_payload_is_cached :
    getPayloadSize Payload.unserializable = 0
    ∧ captureStoresPayload (1024 * 1024) Payload.unserializable = true :=
  ⟨rfl, rfl⟩

/-- **C3**: the freshness boundary of the orchestrator's read path.  An
entry whose age `⌊(now − createdAt)/1000⌋` is at least the resolved TTL
is treated as expired — served stale with a background refresh when
stale-while-revalidate is on, or passed to the fetch path when it is off
— and in particular is never served as a fresh hit; an entry with age
strictly below the TTL is served as a fresh hit. -/
theorem C3_freshness_boundary (now createdAt ttl storedTtl : Nat) (v : Payload)
    (swr : Bool) :
    ((now - createdAt) / 1000 ≥ ttl →
      readDecision now ttl swr (some ⟨v, createdAt, storedTtl⟩)
        = (if swr then ReadOutcome.staleServeAndRefresh v else ReadOutcome.fetch)
      ∧ readDecision now ttl swr (some ⟨v, createdAt, storedTtl⟩)
        ≠ ReadOutcome.freshHit v)
    ∧ ((now - createdAt) / 1000 < ttl →
      readDecision now ttl swr (some ⟨v, createdAt, storedTtl⟩)
        = ReadOutcome.freshHit v) := by
  constructor
  · intro hage
    have hexp : isExpired now createdAt ttl = true := decide_eq_true hage
    constructor
    · simp [readDecision, hexp]
    · cases swr <;> simp [readDecision, hexp]
  · intro hage
    have hexp : isExpired now createdAt ttl = false :=
      decide_eq_false (Nat.not_le.mpr hage)
    simp [readDecision, hexp]

/-- **C3 witness**: at `now = 5000 ms`, `createdAt = 0`, the entry's age
is exactly `5 s`: with `ttl = 5` it is served stale (not fresh), while
with `ttl = 6` it is a fresh hit. -/
theorem C3_witness :
    readDecision 5000 5 true (some ⟨Payload.null, 0, 60⟩)
      = ReadOutcome.staleServeAndRefresh Payload.null
    ∧ readDecision 5000 6 true (some ⟨Payload.null, 0, 60⟩)
      = ReadOutcome.freshHit Payload.null := by
  constructor
  · have h := (C3_freshness_boundary 5000 0 5 60 Payload.null true).1 (by decide)
    simpa using h.1
  · exact (C3_freshness_boundary 5000 0 6 60 Payload.null true).2 (by decide)

/-- **C4 counterexample**: when the timeout promise wins the race, the
engine's `invalidate` — whose `catch` block logs and then re-throws —
returns the timeout error to its caller even though every rule
succeeded; the claim that it "never propagates an error to its caller"
is false. -/
theorem C4_counterexample :
    engineInvalidate true (Except.ok ()) = Except.error "Invalidation timeout" :=
  rfl

/-- **C4** (amended): exceeding the invalidation timeout logs, abandons
the remaining invalidation work (the race discards `performInvalidation`'s
eventual outcome) and re-throws the timeout error to the caller; when no
timeout occurs, the pass's own outcome — including a rule failure — is
propagated unchanged. -/
theorem C4_amended_timeout_propagates :
    (∀ passResult : Except String Unit,
      engineInvalidate true passResult = Except.error "Invalidation timeout")
    ∧ (∀ passResult : Except String Unit,
      engineInvalidate false passResult = passResult) :=
  ⟨fun _ => rfl, fun _ => rfl⟩

/-- **C8** (code evidence): the refresh promise of `refreshInBackground`
settles — and hence the `pendingRequests` entry is removed by its
`finally` — only when the handler emits via `json`/`send`/`end` or
throws synchronously; no safety timer exists, so a handler that never
emits leaves the entry registered forever, and future refreshes for the
key stay suppressed. -/
theorem C8_silent_handler_never_cleared :
    (refreshRun RefreshHandlerBehavior.silent).pendingCleared = false
    ∧ (refreshRun RefreshHandlerBehavior.emitEnd).pendingCleared = true
    ∧ (refreshRun (RefreshHandlerBehavior.emitJson Payload.null)).wrote
        = some Payload.null
    ∧ (refreshRun (RefreshHandlerBehavior.emitJson Payload.null)).pendingCleared
        = true :=
  ⟨rfl, rfl, rfl, rfl⟩

/-- All arrivals after the first only enqueue onto the active pending
entry. -/
theorem foldl_arrive_active : ∀ (ids : List Nat) (s : CoalesceState),
    s.pendingActive = true →
    ids.foldl arrive s = { s with waiters := s.waiters ++ ids } := by
  intro ids
  induction ids with
  | nil => intro s _; simp
  | cons x xs ih =>
    intro s hs
    simp only [List.foldl_cons]
    have harr : arrive s x = { s with waiters := s.waiters ++ [x] } := by
      simp [arrive, hs]
    rw [harr, ih { s with waiters := s.waiters ++ [x] } hs]
    simp

/-- **C9**: a burst of identical cacheable requests that all arrive
before the shared promise settles produces exactly one downstream
handler invocation (the first arrival's), every request in the burst is
delivered the same settled result — payload or pass-through error — and
the `PendingRequest` entry is removed at settlement regardless of the
outcome. -/
theorem C9_coalescing (ids : List Nat) (hne : ids ≠ [])
    (result : Except String Payload) :
    (ids.foldl arrive coalesceInit).invocations = 1
    ∧ (ids.foldl arrive coalesceInit).waiters = ids
    ∧ (settle (ids.foldl arrive coalesceInit) result).2
        = ids.map (fun id => (id, result))
    ∧ (settle (ids.foldl arrive coalesceInit) result).1.pendingActive = false
    ∧ (settle (ids.foldl arrive coalesceInit) result).1.waiters = [] := by
  cases ids with
  | nil => exact absurd rfl hne
  | cons x xs =>
    have h1 : arrive coalesceInit x
        = { pendingActive := true, waiters := [x], invocations := 1 } := by
      simp [arrive, coalesceInit]
    have h2 : (x :: xs).foldl arrive coalesceInit
        = { pendingActive := true, waiters := x :: xs, invocations := 1 } := by
      rw [List.foldl_cons, h1, foldl_arrive_active xs
        { pendingActive := true, waiters := [x], invocations := 1 } rfl]
      rfl
    refine ⟨by rw [h2], by rw [h2], ?_, by rw [h2]; rfl, by rw [h2]; rfl⟩
    rw [h2]
    rfl

/-- **C9 witness**: three concurrent identical requests — one handler
invocation, all three delivered the same payload, entry cleared. -/
theorem C9_witness :
    (([0, 1, 2] : List Nat).foldl arrive coalesceInit).invocations = 1
    ∧ (([0, 1, 2] : List Nat).foldl arrive coalesceInit).waiters = [0, 1, 2]
    ∧ (settle (([0, 1, 2] : List Nat).foldl arrive coalesceInit)
        (Except.ok Payload.null)).2
        = ([0, 1, 2] : List Nat).map (fun id => (id, Except.ok Payload.null))
    ∧ (settle (([0, 1, 2] : List Nat).foldl arrive coalesceInit)
        (Except.ok Payload.null)).1.pendingActive = false
    ∧ (settle (([0, 1, 2] : List Nat).foldl arrive coalesceInit)
        (Except.ok Payload.null)).1.waiters = [] :=
  C9_coalescing [0, 1, 2] (by simp) (Except.ok Payload.null)

/-- **C6**: executing a rule with `respectUserScope = true` on behalf of
a (truthy) caller identity `A` deletes no entry whose key's identity
segment is a different identity `B`: the scoping guard of the engine's
candidate filter rejects every such key, for every matcher, pattern list
and target-method set, so those entries survive in every store. -/
theorem C6_user_scope_preserved (matcher : String → String → Bool) (rule : Rule)
    (pathParams : List (String × String)) (normalizedPath : String)
    (stores : List (List String)) (processed : List String)
    (A key : String) (parsed : ParsedCacheKey)
    (hscope : rule.respectUserScope = some true) (hA : A ≠ "")
    (hparse : parseCacheKey key = some parsed) (hB : parsed.userId ≠ A) :
    List.Forall₂ (fun s t => key ∈ s → key ∈ t) stores
      (processRule matcher rule pathParams (some A) normalizedPath stores processed).1 := by
  apply processRule_preserves_key
  intro pattern targetMethods
  simp [engineKeyTargeted, hparse, hscope, scopeExcludes, hA, hB]

/-- **C6 witness**: a write by `alice` against a rule with
`respectUserScope = true` leaves `bob`'s cached entry in place. -/
theorem C6_witness :
    List.Forall₂ (fun s t => "GET:/x:::bob" ∈ s → "GET:/x:::bob" ∈ t)
      [["GET:/x:::bob"]]
      (processRule (fun _ _ => true)
        ⟨["GET:\x7bpath\x7d*"], none, some true⟩ [] (some "alice") "/x"
        [["GET:/x:::bob"]] []).1 :=
  C6_user_scope_preserved (fun _ _ => true)
    ⟨["GET:\x7bpath\x7d*"], none, some true⟩ [] "/x" [["GET:/x:::bob"]] []
    "alice" "GET:/x:::bob" ⟨"GET", "/x", "", "", "bob"⟩
    rfl (by decide) (by decide) (by decide)

/-- **C10**: a key that does not split into exactly five colon-separated
fields fails `parseCacheKey`, so the engine's candidate filter rejects
it and no rule, pattern or target-method set ever deletes it from any
store. -/
theorem C10_unparseable_keys_survive (matcher : String → String → Bool) (rule : Rule)
    (pathParams : List (String × String)) (userId : Option String)
    (normalizedPath : String) (stores : List (List String))
    (processed : List String) (key : String)
    (hsplit : (jsSplit ':' key).length ≠ 5) :
    parseCacheKey key = none
    ∧ List.Forall₂ (fun s t => key ∈ s → key ∈ t) stores
        (processRule matcher rule pathParams userId normalizedPath stores processed).1 := by
  have hnone : parseCacheKey key = none := by
    cases h : parseCacheKey key with
    | none => rfl
    | some p =>
      exfalso
      apply hsplit
      unfold parseCacheKey at h
      revert h
      generalize jsSplit ':' key = l
      rcases l with _ | ⟨a, _ | ⟨b, _ | ⟨c, _ | ⟨d, _ | ⟨e, _ | ⟨f, t⟩⟩⟩⟩⟩⟩ <;>
        intro h <;> simp_all
  refine ⟨hnone, processRule_preserves_key _ _ _ _ _ _ _ _ ?_⟩
  intro pattern targetMethods
  simp [engineKeyTargeted, hnone]

/-- **C10 witness**: the two-field key `GET:/a/b` (no query, body or
identity segment) is rejected by the parse and survives an invalidation
pass that would otherwise match everything. -/
theorem C10_witness :
    parseCacheKey "GET:/a/b" = none
    ∧ List.Forall₂ (fun s t => "GET:/a/b" ∈ s → "GET:/a/b" ∈ t)
        [["GET:/a/b"]]
        (processRule (fun _ _ => true) ⟨["*"], some ["GET"], none⟩ [] none "/a/b"
          [["GET:/a/b"]] []).1 :=
  C10_unparseable_keys_survive (fun _ _ => true) ⟨["*"], some ["GET"], none⟩
    [] none "/a/b" [["GET:/a/b"]] [] "GET:/a/b" (by decide)

/-- Running the legacy patterns in sequence deletes exactly the keys
matched by at least one of them. -/
theorem foldl_deleteMatching (ps : List String) (keys : List String) :
    ps.foldl (fun ks p => deleteMatching p ks) keys
      = keys.filter fun k => !(ps.any fun p => memKeyMatches p k) := by
  induction ps generalizing keys with
  | nil => simp
  | cons p ps ih =>
    rw [List.foldl_cons, ih]
    unfold deleteMatching
    rw [List.filter_filter]
    congr 1
    funext k
    cases hm : memKeyMatches p k <;> simp [hm, List.any_cons]

/-- **C5 counterexample**: the claim's wildcard pattern `GET:{path}:*`
matches `bob`'s cached entry for `/p`, yet an anonymous `DELETE /p` with
invalidate-on-write enabled leaves that entry in the store: the code's
patterns are `GET:{path}:*:*:{userId}`, scoped to the writer's own
caller identity, not to every caller identity. -/
theorem C5_counterexample :
    memKeyMatches "GET:/p:*" "GET:/p:::bob" = true
    ∧ handleInvalidateOnWrite true (fun _ => "")
        ⟨"DELETE", "/p", [], J.null, none⟩ [] ["GET:/p:::bob"]
      = ["GET:/p:::bob"] :=
  ⟨by decide, by decide⟩

/-- **C5** (amended): for a write request with invalidate-on-write
enabled, the legacy path deletes exactly the keys matching — as
memory-store wildcard patterns — the request's own derived CacheKey,
`GET:{path}:*:*:{userId}` and `POST:{path}:*:*:{userId}` for the
request's *own* caller identity, and each pattern returned by the
optional callback; all other keys survive. -/
theorem C5_amended_scoped_patterns (hashFn : String → String) (r : Req)
    (callbackPatterns : List String) (keys : List String)
    (hw : reqMethod r ∈ (["POST", "PUT", "PATCH", "DELETE"] : List String)) :
    handleInvalidateOnWrite true hashFn r callbackPatterns keys
      = keys.filter fun k =>
          !((legacyPatterns hashFn r callbackPatterns).any
            fun p => memKeyMatches p k) := by
  unfold handleInvalidateOnWrite
  have hc : (["POST", "PUT", "PATCH", "DELETE"] : List String).contains (reqMethod r)
      = true := List.elem_eq_true_of_mem hw
  rw [hc]
  simp [foldl_deleteMatching]

/-- **C5 witness**: an anonymous `DELETE /p` deletes its own key and the
writer-scoped `GET` variants of `/p` but not `bob`'s entry, exactly the
filter the amended claim describes. -/
theorem C5_witness :
    reqMethod ⟨"DELETE", "/p", [], J.null, none⟩
        ∈ (["POST", "PUT", "PATCH", "DELETE"] : List String)
    ∧ handleInvalidateOnWrite true (fun _ => "")
        ⟨"DELETE", "/p", [], J.null, none⟩ []
        ["DELETE:/p:::anon", "GET:/p:a=1::anon", "GET:/p:::bob"]
      = (["DELETE:/p:::anon", "GET:/p:a=1::anon", "GET:/p:::bob"] : List String).filter
          fun k =>
            !((legacyPatterns (fun _ => "") ⟨"DELETE", "/p", [], J.null, none⟩ []).any
              fun p => memKeyMatches p k) :=
  ⟨by decide,
   C5_amended_scoped_patterns (fun _ => "") ⟨"DELETE", "/p", [], J.null, none⟩ []
     ["DELETE:/p:::anon", "GET:/p:a=1::anon", "GET:/p:::bob"] (by decide)⟩

/-- **C1 counterexample**: the five fields are joined with `:` without
escaping, so the key space is ambiguous — a `GET /p` whose single query
value contains `:b=2` collides with a `GET /p:a=1` (different normalized
path and different query set) — and the query sort is stable on equal
keys, so two requests carrying the same parameter *set* `a=1, a=2` in
different orders produce different keys.  Both halves of the claim fail. -/
theorem C1_counterexample :
    buildCacheKey (fun s => s) ⟨"GET", "/p", [("a", "1:b=2")], J.null, none⟩
      = buildCacheKey (fun s => s) ⟨"GET", "/p:a=1", [("b", "2")], J.null, none⟩
    ∧ ("/p" : String) ≠ "/p:a=1"
    ∧ ([("a", "1"), ("a", "2")] : List (String × String)).Perm [("a", "2"), ("a", "1")]
    ∧ buildCacheKey (fun s => s) ⟨"GET", "/p", [("a", "1"), ("a", "2")], J.null, none⟩
      ≠ buildCacheKey (fun s => s) ⟨"GET", "/p", [("a", "2"), ("a", "1")], J.null, none⟩ := by
  refine ⟨by decide, by decide, by decide, by decide⟩

/-- **C1** (amended): `buildCacheKey` is determined by the five
serialized fields — equal method, normalized path, query parameters up
to reordering (with pairwise-distinct parameter keys), body up to object
key reordering, and caller identity yield the same key — and conversely,
when every serialized field is colon-free, equal keys imply equal
serialized field lists. -/
theorem C1_amended_key_correspondence :
    (∀ (hashFn : String → String) (r r' : Req),
      reqMethod r = reqMethod r' → r.path = r'.path →
      r.query.Perm r'.query → (r.query.map Prod.fst).Nodup →
      Reorder r.body r'.body → callerId r = callerId r' →
      buildCacheKey hashFn r = buildCacheKey hashFn r')
    ∧ (∀ (hashFn : String → String) (r r' : Req),
      (∀ s ∈ cacheKeyFields hashFn r, colonFree s) →
      (∀ s ∈ cacheKeyFields hashFn r', colonFree s) →
      buildCacheKey hashFn r = buildCacheKey hashFn r' →
      cacheKeyFields hashFn r = cacheKeyFields hashFn r') := by
  constructor
  · intro hashFn r r' hm hp hq hnd hb hu
    have hsq : sortQueryParams r.query = sortQueryParams r'.query := by
      unfold sortQueryParams
      rw [sortPairs_eq_of_perm hq hnd]
    have hbh : bodyHashField hashFn r = bodyHashField hashFn r' := by
      unfold bodyHashField
      rw [hm]
      by_cases hg : reqMethod r' = "GET"
      · simp [hg]
      · simp [hg, sha256_eq_of_reorder hashFn hb]
    unfold buildCacheKey cacheKeyFields
    rw [hm, hp, hsq, hbh, hu]
  · intro hashFn r r' hf hg heq
    exact joinKey_inj _ _ rfl hf hg heq

/-- **C1 witness**: reordering the query pairs (distinct keys `a`, `b`)
and the body's object keys leaves the key unchanged; and a concrete
colon-free request's field list is recovered from its key. -/
theorem C1_witness :
    buildCacheKey (fun s => s)
      ⟨"GET", "/u", [("b", "2"), ("a", "1")],
        J.obj [("k", J.num 1), ("j", J.null)], some "u"⟩
      = buildCacheKey (fun s => s)
        ⟨"GET", "/u", [("a", "1"), ("b", "2")],
          J.obj [("j", J.null), ("k", J.num 1)], some "u"⟩
    ∧ cacheKeyFields (fun _ => "") ⟨"GET", "/u", [("a", "1")], J.null, some "u"⟩
      = cacheKeyFields (fun _ => "") ⟨"GET", "/u", [("a", "1")], J.null, some "u"⟩ := by
  constructor
  · exact C1_amended_key_correspondence.1 (fun s => s) _ _ rfl rfl (by decide) (by decide)
      (Reorder.obj
        (ReorderP.cons (Reorder.num 1) (ReorderP.cons Reorder.null ReorderP.nil))
        (List.Perm.swap ("j", J.null) ("k", J.num 1) [])
        (by decide))
      rfl
  · exact C1_amended_key_correspondence.2 (fun _ => "") _ _
      (by decide) (by decide) rfl

/-- **C7**: the digest is invariant under reordering of object keys at
any nesting depth (array element order preserved): canonicalization
sorts every object's keys before serialization, so the hash input — and
hence the hash, for any hash function — coincides. -/
theorem C7_digest_reorder_invariant (hashFn : String → String) (j j' : J)
    (h : Reorder j j') : sha256 hashFn j = sha256 hashFn j' :=
  sha256_eq_of_reorder hashFn h

/-- **C7 witness**: a two-level object with both the outer and the inner
keys shuffled digests identically. -/
theorem C7_witness :
    sha256 (fun s => s)
      (J.obj [("b", J.obj [("y", J.num 2), ("x", J.num 1)]), ("a", J.num 0)])
      = sha256 (fun s => s)
        (J.obj [("a", J.num 0), ("b", J.obj [("x", J.num 1), ("y", J.num 2)])]) :=
  C7_digest_reorder_invariant (fun s => s) _ _
    (Reorder.obj
      (ReorderP.cons
        (Reorder.obj
          (ReorderP.cons (Reorder.num 2) (ReorderP.cons (Reorder.num 1) ReorderP.nil))
          (List.Perm.swap ("x", J.num 1) ("y", J.num 2) [])
          (by decide))
        (ReorderP.cons (Reorder.num 0) ReorderP.nil))
      (List.Perm.swap ("a", J.num 0) ("b", J.obj [("x", J.num 1), ("y", J.num 2)]) [])
      (by decide))

end ApiCache
